import Mathlib

/-!
Verification of the jmrl blog engine (Rust) against its natural-language
specification.

The Rust sources are shallowly embedded over `List Char` (one Lean `Char`
per Unicode scalar value, matching Rust `char`).  Every definition is
translated from the source files under `src/`:

* `src/models/blog.rs`     — `BlogPost` and its derived fields
* `src/services/blog.rs`   — frontmatter parsing, loading, lookup
* `src/services/sitemap.rs`— sitemap generation
* `src/services/rss.rs`    — the permalink/guid expressions of the feed
* `src/utils/template.rs`  — placeholder substitution

External library behaviour that the code depends on is modelled where it
decides a claim: the `chrono` date parsing pipeline, the `regex` crate
matching semantics of the three patterns the code builds, and Rust
`str::replace` / `str::split` / `split_whitespace` / `trim` semantics.
The markdown-to-HTML converter (`pulldown_cmark`) is an external pure
collaborator per the spec and is taken as a function parameter.
-/

namespace Jmrl

/-! ### Basic character classes (Rust / regex semantics)

`isWs` is the Unicode `White_Space` property: this is what Rust
`char::is_whitespace`, `str::trim`, `str::split_whitespace` and the regex
crate class `\s` (Unicode mode, the default) all use. -/

def isWs (c : Char) : Bool :=
  (9 ≤ c.toNat && c.toNat ≤ 13) || c.toNat = 32 || c.toNat = 0x85 ||
  c.toNat = 0xa0 || c.toNat = 0x1680 ||
  (0x2000 ≤ c.toNat && c.toNat ≤ 0x200a) ||
  c.toNat = 0x2028 || c.toNat = 0x2029 || c.toNat = 0x202f ||
  c.toNat = 0x205f || c.toNat = 0x3000

/-- Rust `char::is_ascii_uppercase`-style check used to model
`str::to_lowercase` on ASCII input. -/
def rustIsUpper (c : Char) : Bool := 65 ≤ c.toNat && c.toNat ≤ 90

def rustIsLower (c : Char) : Bool := 97 ≤ c.toNat && c.toNat ≤ 122

def rustIsDigit (c : Char) : Bool := 48 ≤ c.toNat && c.toNat ≤ 57

/-- Rust `char::is_alphanumeric` (Unicode `Alphabetic` plus the numeric
categories).  The model covers the ASCII fragment exactly; every concrete
input used below is ASCII.  The only property used at non-ASCII characters
is that case mapping does not create alphanumeric characters from
non-alphanumeric ones, which holds of full Unicode as well. -/
def rustIsAlnum (c : Char) : Bool := rustIsUpper c || rustIsLower c || rustIsDigit c

/-- Rust `str::to_lowercase`, character-wise, on the ASCII fragment
(Unicode multi-character lowerings such as İ do not occur in any input
considered here and never affect the claims: lowercase mappings send
cased letters to letters and leave non-alphanumeric characters fixed). -/
def rustLowerChar (c : Char) : Char :=
  if rustIsUpper c then Char.ofNat (c.toNat + 32) else c

/-! ### Generic string (list-of-char) utilities -/

/-- Trim `White_Space` from both ends: Rust `str::trim`. -/
def trimWs (s : List Char) : List Char :=
  ((s.dropWhile isWs).reverse.dropWhile isWs).reverse

/-- Rust `str::trim_matches(c)`: repeatedly strip the character `c` from
both ends. -/
def trimChar (c : Char) (s : List Char) : List Char :=
  ((s.dropWhile (fun x => x == c)).reverse.dropWhile (fun x => x == c)).reverse

/-- Boolean substring occurrence test: does `pat` occur (contiguously)
anywhere in `s`? -/
def occursB (pat : List Char) : List Char → Bool
  | [] => pat.isPrefixOf ([] : List Char)
  | s@(_ :: cs) => pat.isPrefixOf s || occursB pat cs

/-- Rust `str::replace(pat, repl)` — leftmost, non-overlapping matches of
the (non-empty) literal `pat` found in the original string are replaced by
`repl`; the replacement text is not rescanned within the same call.
Implemented with an explicit fuel argument (the length of the subject)
so that the definition is structurally recursive and kernel-evaluable. -/
def replaceF (pat repl : List Char) : Nat → List Char → List Char
  | 0, s => s
  | _ + 1, [] => []
  | n + 1, s@(c :: cs) =>
    if pat ≠ [] ∧ pat.isPrefixOf s then repl ++ replaceF pat repl n (s.drop pat.length)
    else c :: replaceF pat repl n cs

def replaceAll (pat repl s : List Char) : List Char :=
  replaceF pat repl s.length s

/-- Rust `content.split("---")` specialised to the triple-dash delimiter
used by `BlogService::parse_blog_post` (leftmost, non-overlapping). -/
def splitDashAux (acc : List Char) : List Char → List (List Char)
  | '-' :: '-' :: '-' :: rest => acc.reverse :: splitDashAux [] rest
  | c :: rest => splitDashAux (c :: acc) rest
  | [] => [acc.reverse]

def splitDash (s : List Char) : List (List Char) := splitDashAux [] s

/-- Rust `str::split_whitespace`: maximal runs of non-whitespace
characters, in order; no empty tokens. -/
def splitWsAux (cur : List Char) : List Char → List (List Char)
  | [] => if cur.isEmpty then [] else [cur.reverse]
  | c :: cs =>
    if isWs c then
      if cur.isEmpty then splitWsAux [] cs else cur.reverse :: splitWsAux [] cs
    else splitWsAux (c :: cur) cs

def splitWs (s : List Char) : List (List Char) := splitWsAux [] s

/-- The regex replacement `\s+` → `" "` used by
`BlogPost::generate_excerpt`: every maximal whitespace run becomes one
space. -/
def collapseWs : Bool → List Char → List Char
  | _, [] => []
  | inRun, c :: cs =>
    if isWs c then (if inRun then collapseWs true cs else ' ' :: collapseWs true cs)
    else c :: collapseWs false cs

/-- Rust `join(" ")`: tokens interleaved with single spaces. -/
def joinSp : List (List Char) → List Char
  | [] => []
  | [t] => t
  | t :: rest => t ++ ' ' :: joinSp rest

/-! ### Regex model for `format!(r"{}:\s*(.+)", field)`

`BlogService::extract_frontmatter_field` compiles the pattern
`<field>:\s*(.+)` (the field names are literals without metacharacters)
and calls `Regex::captures`, which yields the leftmost match.  The regex
crate implements Perl-style leftmost-first semantics: at the leftmost
start position where the whole pattern matches, `\s*` is greedy, backing
off one character at a time until `(.+)` (greedy, `.` matching anything
but a newline) can match.  `tryCapture s j` tries the `\s*`-lengths
`j, j-1, …, 0` in order and returns the `(.+)` capture. -/

def wsPrefixLen : List Char → Nat
  | [] => 0
  | c :: cs => if isWs c then wsPrefixLen cs + 1 else 0

def tryCapture (s : List Char) : Nat → Option (List Char)
  | 0 =>
    match s.head? with
    | some c => if c = '\n' then none else some (s.takeWhile (fun x => x != '\n'))
    | none => none
  | j + 1 =>
    match (s.drop (j + 1)).head? with
    | some c =>
      if c = '\n' then tryCapture s j
      else some ((s.drop (j + 1)).takeWhile (fun x => x != '\n'))
    | none => tryCapture s j

/-- The capture of `\s*(.+)` against `s`, per the backtracking order. -/
def captureTail (s : List Char) : Option (List Char) :=
  tryCapture s (wsPrefixLen s)

/-- Leftmost match of `pat ++ \s*(.+)` in `s`, returning the capture
group.  Scans start positions left to right; at each occurrence of the
literal `pat` the tail `\s*(.+)` must also match, else the scan moves
on. -/
def findFieldMatch (pat : List Char) : List Char → Option (List Char)
  | [] => none
  | s@(_ :: cs) =>
    if pat.isPrefixOf s then
      match captureTail (s.drop pat.length) with
      | some cap => some cap
      | none => findFieldMatch pat cs
    else findFieldMatch pat cs

/-! ### Regex model for `format!(r"{}:\s*\[(.*?)\]", field)`

Used by `extract_frontmatter_list`.  After the literal `<field>:`, `\s*`
is greedy; since `[` is not whitespace the only viable `\s*` length is
the full whitespace run.  `(.*?)` is lazy and `.` does not match a
newline, so the capture runs to the first `]` on the same line; if no
`]` occurs before the end of line the whole pattern fails at this start
and the scan moves to the next occurrence of the literal. -/

def findBracketEnd : List Char → Option Nat
  | [] => none
  | c :: cs =>
    if c = ']' then some 0
    else if c = '\n' then none
    else (findBracketEnd cs).map (· + 1)

def listCaptureTail (s : List Char) : Option (List Char) :=
  let rest := s.drop (wsPrefixLen s)
  match rest.head? with
  | some '[' =>
    match findBracketEnd (rest.drop 1) with
    | some k => some ((rest.drop 1).take k)
    | none => none
  | _ => none

def findListMatch (pat : List Char) : List Char → Option (List Char)
  | [] => none
  | s@(_ :: cs) =>
    if pat.isPrefixOf s then
      match listCaptureTail (s.drop pat.length) with
      | some cap => some cap
      | none => findListMatch pat cs
    else findListMatch pat cs

/-! ### Regex model for `<pre><code.*?</code></pre>`

`BlogPost::generate_excerpt` removes code blocks with
`Regex::replace_all(r"<pre><code.*?</code></pre>", " ")`.  `.` does not
match `\n`, so a match starting at an occurrence of `<pre><code` extends
to the first `</code></pre>` that begins before the next newline; if the
line ends (or the text ends) first, there is no match at that start.
Replacement is leftmost and non-overlapping, each match becoming one
space. -/

def findCodeEnd : List Char → Option Nat
  | [] => none
  | s@(c :: cs) =>
    if ("</code></pre>".toList).isPrefixOf s then some 0
    else if c = '\n' then none
    else (findCodeEnd cs).map (· + 1)

def removeCodeF : Nat → List Char → List Char
  | 0, s => s
  | _ + 1, [] => []
  | n + 1, s@(c :: cs) =>
    if ("<pre><code".toList).isPrefixOf s then
      match findCodeEnd (s.drop 10) with
      | some k => ' ' :: removeCodeF n (s.drop (10 + k + 13))
      | none => c :: removeCodeF n cs
    else c :: removeCodeF n cs

def removeCodeBlocks (s : List Char) : List Char := removeCodeF s.length s

/-! ### The chrono model

`BlogPost::new` calls `chrono::DateTime::parse_from_str(&date, "%Y-%m-%d")`.
In chrono this runs the format items of `"%Y-%m-%d"` over a `Parsed`
accumulator and then calls `Parsed::to_datetime`, which needs a complete
date, a complete time (hour and minute at least) and a UTC offset; a
format string with no time and no offset specifier can therefore never
produce an `Ok` value.  The model mirrors that pipeline.  A chrono
`DateTime<Utc>` is ordered by its timestamp, so it is modelled as its
timestamp in seconds (sub-second precision never arises here). -/

structure ChronoDT where
  ts : Int
deriving DecidableEq, Repr

/-- chrono `Parsed`: the fields a format string may fill (subset that
`%Y-%m-%d` and `Parsed::to_datetime` look at). -/
structure ChronoParsed where
  year : Option Int := none
  month : Option Int := none
  day : Option Int := none
  hour_div_12 : Option Int := none
  hour_mod_12 : Option Int := none
  minute : Option Int := none
  second : Option Int := none
  offset : Option Int := none
deriving DecidableEq, Repr

/-- Parse a decimal number of at least one digit (chrono `scan::number`),
returning the value and the rest.  `maxDigits` bounds the scan as chrono
does per specifier. -/
def scanNumber (maxDigits : Nat) (neg : Bool) (acc : Nat) (got : Bool) :
    List Char → Option (Int × List Char)
  | [] => if got then some (if neg then -(acc : Int) else (acc : Int), []) else none
  | s@(c :: cs) =>
    if rustIsDigit c ∧ 0 < maxDigits then
      scanNumber (maxDigits - 1) neg (acc * 10 + (c.toNat - 48)) true cs
    else if got then some (if neg then -(acc : Int) else (acc : Int), s)
    else none

/-- The format `"%Y-%m-%d"` run against `s` (chrono: `%Y` is a signed
year, `%m`/`%d` are two-digit numbers; literal `-` between them),
producing the three parsed numbers. -/
def chronoParseYmdFields (s : List Char) : Option (Int × Int × Int) := do
  let (sgn, s0) := match s with
    | '-' :: rest => (true, rest)
    | '+' :: rest => (false, rest)
    | _ => (false, s)
  let (y, s1) ← scanNumber 4 sgn 0 false s0
  let s2 ← match s1 with | '-' :: r => some r | _ => none
  let (mo, s3) ← scanNumber 2 false 0 false s2
  let s4 ← match s3 with | '-' :: r => some r | _ => none
  let (d, s5) ← scanNumber 2 false 0 false s4
  if s5 = [] then some (y, mo, d) else none

/-- Running the format fills only the calendar date fields of the
`Parsed` accumulator; `"%Y-%m-%d"` contains no time or offset
specifier, so those fields keep their `none` default. -/
def chronoParseYmd (s : List Char) : Option ChronoParsed :=
  (chronoParseYmdFields s).map
    (fun t => { year := some t.1, month := some t.2.1, day := some t.2.2 })

/-- Days from civil date (Howard Hinnant's algorithm, as used by chrono
internally); divisions are C-style truncating divisions on values the
branch keeps non-negative. -/
def daysFromCivil (y m d : Int) : Int :=
  let y := if m ≤ 2 then y - 1 else y
  let era := (if 0 ≤ y then y else y - 399).tdiv 400
  let yoe := y - era * 400
  let mp := (m + 9).emod 12
  let doy := (153 * mp + 2).tdiv 5 + d - 1
  let doe := yoe * 365 + yoe.tdiv 4 - yoe.tdiv 100 + doy
  era * 146097 + doe - 719468

/-- Civil date from days since the epoch (Howard Hinnant's algorithm). -/
def civilFromDays (z0 : Int) : Int × Int × Int :=
  let z := z0 + 719468
  let era := (if 0 ≤ z then z else z - 146096).tdiv 146097
  let doe := z - era * 146097
  let yoe := (doe - doe.tdiv 1460 + doe.tdiv 36524 - doe.tdiv 146096).tdiv 365
  let y := yoe + era * 400
  let doy := doe - (365 * yoe + yoe.tdiv 4 - yoe.tdiv 100)
  let mp := (5 * doy + 2).tdiv 153
  let d := doy - (153 * mp + 2).tdiv 5 + 1
  let m := mp + (if mp < 10 then 3 else -9)
  (y + (if m ≤ 2 then 1 else 0), m, d)

/-- chrono `Parsed::to_datetime`: needs year+month+day, hour+minute
(`second` defaults to 0) and an offset; returns `none` (chrono
`NOT_ENOUGH`) whenever any of those groups is absent. -/
def ChronoParsed.to_datetime (p : ChronoParsed) : Option ChronoDT :=
  match p.year, p.month, p.day with
  | some y, some mo, some d =>
    match p.hour_div_12, p.hour_mod_12, p.minute with
    | some hd, some hm, some mi =>
      match p.offset with
      | some off =>
        some ⟨daysFromCivil y mo d * 86400 + (hd * 12 + hm) * 3600 + mi * 60 +
          (p.second.getD 0) - off⟩
      | none => none
    | _, _, _ => none
  | _, _, _ => none

/-- `chrono::DateTime::parse_from_str(s, "%Y-%m-%d")` followed by
`.ok().map(|dt| dt.with_timezone(&Utc))` as in `BlogPost::new`
(`with_timezone` does not change the timestamp). -/
def chronoParseFromStrYmd (s : List Char) : Option ChronoDT :=
  (chronoParseYmd s).bind ChronoParsed.to_datetime

def digitChar (n : Nat) : Char := Char.ofNat (48 + n % 10)

def pad2 (n : Nat) : List Char := [digitChar (n / 10), digitChar n]

def pad4 (n : Nat) : List Char :=
  [digitChar (n / 1000), digitChar (n / 100), digitChar (n / 10), digitChar n]

def natDigitsF : Nat → Nat → List Char
  | 0, _ => []
  | fuel + 1, n => if n < 10 then [digitChar n] else natDigitsF fuel (n / 10) ++ [digitChar n]

/-- chrono year formatting in RFC 3339: zero-padded to four digits inside
0..=9999, sign-prefixed full digits outside. -/
def fmtYear (y : Int) : List Char :=
  if 0 ≤ y ∧ y ≤ 9999 then pad4 y.toNat
  else if y < 0 then '-' :: natDigitsF 24 (-y).toNat
  else '+' :: natDigitsF 24 y.toNat

/-- chrono `DateTime<Utc>::to_rfc3339` for a whole-second timestamp:
`YYYY-MM-DDTHH:MM:SS+00:00`. -/
def toRfc3339 (dt : ChronoDT) : List Char :=
  let days := dt.ts.ediv 86400
  let secs := (dt.ts.emod 86400).toNat
  let c := civilFromDays days
  fmtYear c.1 ++ '-' :: pad2 c.2.1.toNat ++ '-' :: pad2 c.2.2.toNat ++
    'T' :: pad2 (secs / 3600) ++ ':' :: pad2 (secs % 3600 / 60) ++
    ':' :: pad2 (secs % 60) ++ "+00:00".toList

/-! ### `src/error.rs` and `src/config.rs` -/

/-- `AppError` from `src/error.rs` (error payloads that carry foreign
library values are collapsed to their message-free constructor). -/
inductive AppError where
  | Io : AppError
  | Template : List Char → AppError
  | Config : AppError
  | BlogParsing : List Char → AppError
  | NotFound : List Char → AppError
  | Internal : List Char → AppError
deriving DecidableEq, Repr

structure SiteConfig where
  title : List Char
  domain : List Char
  description : List Char
  author : List Char
  language : List Char
deriving DecidableEq, Repr

structure ServerConfig where
  host : List Char
  port : Nat
deriving DecidableEq, Repr

structure CacheConfig where
  static_files_max_age : Nat
  html_max_age : Nat
deriving DecidableEq, Repr

structure SocialConfig where
  linkedin : Option (List Char)
  github : Option (List Char)
  email : Option (List Char)
deriving DecidableEq, Repr

structure AnalyticsConfig where
  google_analytics_id : Option (List Char)
deriving DecidableEq, Repr

structure Config where
  site : SiteConfig
  server : ServerConfig
  cache : CacheConfig
  social : SocialConfig
  analytics : AnalyticsConfig
deriving DecidableEq, Repr

instance exceptDecEq {ε α : Type} [DecidableEq ε] [DecidableEq α] :
    DecidableEq (Except ε α) := fun x y =>
  match x, y with
  | .ok a, .ok b =>
    if h : a = b then .isTrue (by rw [h]) else .isFalse (fun hc => h (by injection hc))
  | .error a, .error b =>
    if h : a = b then .isTrue (by rw [h]) else .isFalse (fun hc => h (by injection hc))
  | .ok _, .error _ => .isFalse (fun hc => Except.noConfusion hc)
  | .error _, .ok _ => .isFalse (fun hc => Except.noConfusion hc)

/-! ### `src/models/blog.rs` — `BlogPost` -/

structure BlogPost where
  title : List Char
  date : List Char
  date_parsed : Option ChronoDT
  description : List Char
  content : List Char
  path : List Char
  slug : List Char
  tags : List (List Char)
  reading_time : Nat
  excerpt : List Char
deriving DecidableEq, Repr

namespace BlogPost

/-- `BlogPost::generate_slug`: lowercase the title, map non-alphanumeric
characters to `-`, split on `-`, drop empty segments, re-join with `-`.
Splitting on `-` and dropping empty segments is the same as collecting
the maximal runs of non-`-` characters, which is how it is written
here. -/
def slugRuns (cur : List Char) : List Char → List (List Char)
  | [] => if cur.isEmpty then [] else [cur.reverse]
  | c :: cs =>
    if c = '-' then
      if cur.isEmpty then slugRuns [] cs else cur.reverse :: slugRuns [] cs
    else slugRuns (c :: cur) cs

def generate_slug (title : List Char) : List Char :=
  List.intercalate ['-']
    (slugRuns []
      ((title.map rustLowerChar).map (fun c => if rustIsAlnum c then c else '-')))

/-- `BlogPost::calculate_reading_time`:
`((word_count as f32 / 200.0).ceil() as u32).max(1)`.  The `f32`
round-trip is exact for every representable word count that matters
(word counts below 2^24), so the ceiling is computed in `Nat`. -/
def calculate_reading_time (content : List Char) : Nat :=
  max (((splitWs content).length + 199) / 200) 1

/-- The literal tag replacements of `BlogPost::generate_excerpt`, in
source order. -/
def tagReplacements : List (List Char × List Char) :=
  [("<h2>".toList, [] ), ("</h2>".toList, [' ']),
   ("<h3>".toList, [] ), ("</h3>".toList, [' ']),
   ("<h4>".toList, [] ), ("</h4>".toList, [' ']),
   ("<p>".toList, [] ), ("</p>".toList, [' ']),
   ("<li>".toList, [] ), ("</li>".toList, [' ']),
   ("<ul>".toList, [] ), ("</ul>".toList, [' ']),
   ("<ol>".toList, [] ), ("</ol>".toList, [' ']),
   ("<br>".toList, [' ']), ("<br />".toList, [' ']),
   ("<em>".toList, [] ), ("</em>".toList, [] ),
   ("<strong>".toList, [] ), ("</strong>".toList, [] ),
   ("<blockquote>".toList, [] ), ("</blockquote>".toList, [' '])]

def stripHtmlTags (content : List Char) : List Char :=
  tagReplacements.foldl (fun acc pr => replaceAll pr.1 pr.2 acc) content

/-- The cleaned plain text of `generate_excerpt` before truncation:
tag replacements, code-block removal, whitespace collapse, trim. -/
def cleanedText (content : List Char) : List Char :=
  trimWs (collapseWs false (removeCodeBlocks (stripHtmlTags content)))

/-- `BlogPost::generate_excerpt`. -/
def generate_excerpt (content : List Char) : List Char :=
  let cleaned := cleanedText content
  let words := splitWs cleaned
  if words.length ≤ 30 then cleaned
  else joinSp (words.take 30) ++ "...".toList

/-- `BlogPost::new`. -/
def new (title date description content path : List Char)
    (tags : List (List Char)) : BlogPost :=
  { title := title
    date := date
    date_parsed := chronoParseFromStrYmd date
    description := description
    content := content
    path := path
    slug := generate_slug title
    tags := tags
    reading_time := calculate_reading_time content
    excerpt := generate_excerpt content }

/-- `BlogPost::iso_date`. -/
def iso_date (p : BlogPost) : List Char :=
  match p.date_parsed with
  | some dt => toRfc3339 dt
  | none => p.date

end BlogPost

/-- Rust `Ord` on `i64` (chrono timestamps). -/
def cmpInt (a b : Int) : Ordering :=
  if a < b then .lt else if b < a then .gt else .eq

/-- Rust `Ord` on `String`: lexicographic.  (Rust compares UTF-8 bytes;
byte order and scalar-value order agree under UTF-8.) -/
def lexLt : List Char → List Char → Bool
  | [], [] => false
  | [], _ :: _ => true
  | _ :: _, [] => false
  | a :: as', b :: bs' => if a < b then true else if b < a then false else lexLt as' bs'

def cmpLex (a b : List Char) : Ordering :=
  if lexLt a b then .lt else if lexLt b a then .gt else .eq

/-- `impl Ord for BlogPost` (`src/models/blog.rs:144-154`): newest first by
parsed date, a parsed date before none, raw strings lexicographically
descending when both parses failed. -/
def BlogPost.cmp (p q : BlogPost) : Ordering :=
  match p.date_parsed, q.date_parsed with
  | some a, some b => cmpInt b.ts a.ts
  | some _, none => .lt
  | none, some _ => .gt
  | none, none => cmpLex q.date p.date

/-- The `≤` relation induced by `BlogPost::cmp`, as used by
`Vec::sort`. -/
def postLe (p q : BlogPost) : Prop := BlogPost.cmp p q ≠ Ordering.gt

instance : DecidableRel postLe := fun p q =>
  inferInstanceAs (Decidable (BlogPost.cmp p q ≠ Ordering.gt))

/-! ### `src/services/blog.rs` — `BlogService` -/

namespace BlogService

/-- `BlogService::extract_frontmatter_field`: leftmost match of
`<field>:\s*(.+)` anywhere in the metadata block, the capture trimmed of
whitespace and then of surrounding `"` characters; a typed
`BlogParsing` error when the pattern does not match. -/
def extract_frontmatter_field (frontmatter field : List Char) :
    Except AppError (List Char) :=
  match findFieldMatch (field ++ [':']) frontmatter with
  | some cap => .ok (trimChar '"' (trimWs cap))
  | none =>
    .error (.BlogParsing ("Missing ".toList ++ field ++ " field in frontmatter".toList))

/-- `BlogService::extract_frontmatter_list`: `<field>:\s*\[(.*?)\]`,
bracket contents split on commas, each element trimmed of whitespace,
`"` and then `\x27`, empty elements dropped; absence of the pattern
yields the empty list (the Rust function returns `Result` but never an
`Err`, and the caller applies `unwrap_or_default`). -/
def splitComma (cur : List Char) : List Char → List (List Char)
  | [] => [cur.reverse]
  | c :: cs => if c = ',' then cur.reverse :: splitComma [] cs else splitComma (c :: cur) cs

def extract_frontmatter_list (frontmatter field : List Char) : List (List Char) :=
  match findListMatch (field ++ [':']) frontmatter with
  | some inner =>
    ((splitComma [] inner).map (fun t => trimChar '\x27' (trimChar '"' (trimWs t)))).filter
      (fun t => !t.isEmpty)
  | none => []

/-- Rust `str::strip_suffix` as used on the filename. -/
def stripSuffix (s suf : List Char) : Option (List Char) :=
  if suf.isSuffixOf s then some (s.take (s.length - suf.length)) else none

/-- `BlogService::parse_blog_post`.  `mdToHtml` is the external
`pulldown_cmark` markdown-to-HTML conversion, a pure collaborator per the
spec.  A document splitting into fewer than three parts on `---` is
skipped (`Ok(None)`, with a `tracing::warn!`); a missing required field
propagates the `BlogParsing` error. -/
def parse_blog_post (mdToHtml : List Char → List Char)
    (content filename : List Char) : Except AppError (Option BlogPost) :=
  let parts := splitDash content
  if parts.length < 3 then .ok none
  else
    let frontmatter := parts.getD 1 []
    match extract_frontmatter_field frontmatter ("title".toList) with
    | .error e => .error e
    | .ok title =>
      match extract_frontmatter_field frontmatter ("date".toList) with
      | .error e => .error e
      | .ok date =>
        match extract_frontmatter_field frontmatter ("description".toList) with
        | .error e => .error e
        | .ok description =>
          let tags := extract_frontmatter_list frontmatter ("tags".toList)
          let markdown := List.intercalate ("---".toList) (parts.drop 2)
          let html_output := mdToHtml markdown
          let path := (stripSuffix filename (".md".toList)).getD filename
          .ok (some (BlogPost.new title date description html_output path tags))

/-- Rust `Path::extension` / `Path::file_stem` for a bare file name:
split at the last `.` that is not the leading character. -/
def lastDotIdx (name : List Char) : Option Nat :=
  match name.reverse.findIdx? (fun c => c == '.') with
  | some j =>
    let i := name.length - 1 - j
    if i = 0 then none else some i
  | none => none

def extOf (name : List Char) : Option (List Char) :=
  (lastDotIdx name).map (fun i => name.drop (i + 1))

def stemOf (name : List Char) : List Char :=
  match lastDotIdx name with
  | some i => name.take i
  | none => name

/-- The directory loop of `BlogService::load_posts` over a listing of
(file name, file contents) pairs: files whose extension is not `md` are
ignored, a parse returning `Ok(None)` is skipped, a parse error aborts
the whole load (the `?` operator), and parsed posts are collected in
directory order. -/
def loadPostsFrom (mdToHtml : List Char → List Char) :
    List (List Char × List Char) → Except AppError (List BlogPost)
  | [] => .ok []
  | (name, content) :: rest =>
    if extOf name = some ("md".toList) then
      match parse_blog_post mdToHtml content (stemOf name) with
      | .error e => .error e
      | .ok none => loadPostsFrom mdToHtml rest
      | .ok (some p) =>
        match loadPostsFrom mdToHtml rest with
        | .error e => .error e
        | .ok ps => .ok (p :: ps)
    else loadPostsFrom mdToHtml rest

/-- `posts.sort()`: Rust `Vec::sort` is a stable sort by `Ord`; a stable
sort with respect to a fixed total preorder has a unique result, so any
stable sorting algorithm is an exact model.  Mathlib `insertionSort` is
stable. -/
def sortPosts (posts : List BlogPost) : List BlogPost :=
  List.insertionSort postLe posts

/-- `BlogService::load_posts` (directory reading itself modelled as the
given listing; directory-open failure is out of scope of the claims). -/
def load_posts (mdToHtml : List Char → List Char)
    (entries : List (List Char × List Char)) : Except AppError (List BlogPost) :=
  (loadPostsFrom mdToHtml entries).map sortPosts

/-- `BlogService::get_post_by_slug`: a single `find` pass over the list
testing `post.slug == slug || post.path == slug`. -/
def get_post_by_slug (posts : List BlogPost) (slug : List Char) : Option BlogPost :=
  posts.find? (fun post => post.slug == slug || post.path == slug)

end BlogService

/-! ### `src/utils/template.rs` — `TemplateEngine::render_template`

The filesystem read of the template is modelled out (the claims quantify
over the template text); everything after the read is modelled exactly.
The context is a `HashMap<String, String>`; its iteration order is
unspecified, so the model takes one enumeration of the map as an
association list — every list without duplicate keys is a possible
iteration order of the corresponding map. -/

namespace TemplateEngine

def placeholderOf (key : List Char) : List Char :=
  "<!-- ".toList ++ key ++ " -->".toList

/-- The `format!`-generated analytics script block (braces appear in the
output once, the Rust source doubles them inside `format!`). -/
def analyticsScript (ga : List Char) : List Char :=
  "<script async src=\"https://www.googletagmanager.com/gtag/js?id=".toList ++ ga ++
  "\"></script>\n<script>\n  window.dataLayer = window.dataLayer || [];\n  function gtag()\x7bdataLayer.push(arguments);\x7d\n  gtag(\x27js\x27, new Date());\n  gtag(\x27config\x27, \x27".toList ++ ga ++
  "\x27);\n</script>".toList

def render_template (cfg : Config) (template_content : List Char)
    (ctx : List (List Char × List Char)) : List Char :=
  let r0 := ctx.foldl (fun acc kv => replaceAll (placeholderOf kv.1) kv.2 acc)
    template_content
  let r1 := replaceAll ("<!-- SITE_TITLE -->".toList) cfg.site.title r0
  let r2 := replaceAll ("<!-- SITE_DESCRIPTION -->".toList) cfg.site.description r1
  let r3 := replaceAll ("<!-- SITE_AUTHOR -->".toList) cfg.site.author r2
  let r4 := replaceAll ("<!-- SITE_DOMAIN -->".toList) cfg.site.domain r3
  match cfg.analytics.google_analytics_id with
  | some ga => replaceAll ("<!-- ANALYTICS -->".toList) (analyticsScript ga) r4
  | none => replaceAll ("<!-- ANALYTICS -->".toList) [] r4

end TemplateEngine

/-! ### `src/services/sitemap.rs` — `SitemapService::generate_sitemap` -/

namespace SitemapService

def sitemapHeader : List Char :=
  ("<?xml version=\"1.0\" encoding=\"UTF-8\"?>\n" ++
   "<urlset xmlns=\"http://www.sitemaps.org/schemas/sitemap/0.9\"\n" ++
   "        xmlns:news=\"http://www.google.com/schemas/sitemap-news/0.9\"\n" ++
   "        xmlns:xhtml=\"http://www.w3.org/1999/xhtml\"\n" ++
   "        xmlns:mobile=\"http://www.google.com/schemas/sitemap-mobile/1.0\"\n" ++
   "        xmlns:image=\"http://www.google.com/schemas/sitemap-image/1.1\"\n" ++
   "        xmlns:video=\"http://www.google.com/schemas/sitemap-video/1.1\">\n").toList

def rootEntry (cfg : Config) : List Char :=
  "  <url>\n    <loc>https://".toList ++ cfg.site.domain ++
  "</loc>\n    <changefreq>weekly</changefreq>\n    <priority>1.0</priority>\n  </url>\n".toList

def blogIndexEntry (cfg : Config) : List Char :=
  "  <url>\n    <loc>https://".toList ++ cfg.site.domain ++
  "/blog</loc>\n    <changefreq>weekly</changefreq>\n    <priority>0.9</priority>\n  </url>\n".toList

def feedEntry (cfg : Config) : List Char :=
  "  <url>\n    <loc>https://".toList ++ cfg.site.domain ++
  "/feed.xml</loc>\n    <changefreq>daily</changefreq>\n    <priority>0.5</priority>\n  </url>\n".toList

/-- Priority as formatted by `{:.1}` from the three `f64` literals. -/
def priorityStr (index : Nat) : List Char :=
  if index < 5 then "0.8".toList else if index < 10 then "0.7".toList else "0.6".toList

/-- `iso_date.split('T').next().unwrap_or(&post.date)`: `split` always
yields at least one piece, so this is the prefix of the ISO date before
the first `T`. -/
def postDateOf (p : BlogPost) : List Char :=
  (BlogPost.iso_date p).takeWhile (fun c => c != 'T')

def postLoc (cfg : Config) (p : BlogPost) : List Char :=
  "https://".toList ++ cfg.site.domain ++ "/blog/".toList ++ p.slug

def postUrlEntry (cfg : Config) (index : Nat) (p : BlogPost) : List Char :=
  "  <url>\n    <loc>".toList ++ postLoc cfg p ++
  "</loc>\n    <lastmod>".toList ++ postDateOf p ++
  "</lastmod>\n    <changefreq>monthly</changefreq>\n    <priority>".toList ++
  priorityStr index ++ "</priority>\n  </url>\n".toList

/-- `SitemapService::generate_sitemap`: the accumulating `push_str`
loop over `posts.iter().enumerate()`. -/
def generate_sitemap (cfg : Config) (posts : List BlogPost) : List Char :=
  let s := sitemapHeader ++ rootEntry cfg ++ blogIndexEntry cfg ++ feedEntry cfg
  (posts.enum.foldl (fun acc ip => acc ++ postUrlEntry cfg ip.1 ip.2) s) ++
    "</urlset>".toList

end SitemapService

/-! ### `src/services/rss.rs` — the per-item permalink expressions

Only the URL expressions of `RssService::generate_feed` enter the
claims; the full RSS channel serialisation lives in the `rss` crate. -/

namespace RssService

/-- The `format!("https://{}/blog/{}", config.site.domain, post.slug)`
expression used for the item guid value (`rss.rs:13`). -/
def itemGuidValue (cfg : Config) (p : BlogPost) : List Char :=
  "https://".toList ++ cfg.site.domain ++ "/blog/".toList ++ p.slug

/-- The identical `format!` expression used for the item link
(`rss.rs:28-31`). -/
def itemLink (cfg : Config) (p : BlogPost) : List Char :=
  "https://".toList ++ cfg.site.domain ++ "/blog/".toList ++ p.slug

end RssService

/-! ## General lemmas -/

theorem lexLt_asymm : ∀ {a b : List Char}, lexLt a b = true → lexLt b a = false
  | [], [], h => by simp [lexLt] at h
  | [], _ :: _, _ => by simp [lexLt]
  | _ :: _, [], h => by simp [lexLt] at h
  | x :: xs, y :: ys, h => by
    simp only [lexLt] at h ⊢
    rcases lt_trichotomy x y with hxy | hxy | hxy
    · rw [if_neg (lt_asymm hxy), if_pos hxy]
    · subst hxy
      rw [if_neg (lt_irrefl x), if_neg (lt_irrefl x)] at h ⊢
      exact lexLt_asymm h
    · rw [if_neg (lt_asymm hxy), if_pos hxy] at h
      exact absurd h (by simp)

theorem lexLt_false_trans :
    ∀ {a b c : List Char}, lexLt a b = false → lexLt b c = false → lexLt a c = false
  | [], b, c, h1, h2 => by
    cases b with
    | nil =>
      cases c with
      | nil => simp [lexLt]
      | cons z zs => simp [lexLt] at h2
    | cons y ys => simp [lexLt] at h1
  | _ :: _, _, [], _, _ => by simp [lexLt]
  | x :: xs, b, z :: zs, h1, h2 => by
    cases b with
    | nil => simp [lexLt] at h2
    | cons y ys =>
      simp only [lexLt] at h1 h2 ⊢
      have hxy : ¬ x < y := fun hc => by rw [if_pos hc] at h1; exact absurd h1 (by simp)
      have hyz : ¬ y < z := fun hc => by rw [if_pos hc] at h2; exact absurd h2 (by simp)
      have hzx : z ≤ x := le_trans (not_lt.mp hyz) (not_lt.mp hxy)
      rw [if_neg (not_lt.mpr hzx)]
      by_cases hzx' : z < x
      · rw [if_pos hzx']
      · rw [if_neg hzx']
        have hxz : x = z := le_antisymm (not_lt.mp hzx') hzx
        have hxy' : x = y := le_antisymm (hxz ▸ not_lt.mp hyz) (not_lt.mp hxy)
        subst hxz
        subst hxy'
        rw [if_neg (lt_irrefl x), if_neg (lt_irrefl x)] at h1 h2
        exact lexLt_false_trans h1 h2

theorem cmpInt_ne_gt {a b : Int} : cmpInt a b ≠ Ordering.gt ↔ a ≤ b := by
  unfold cmpInt
  split_ifs with h1 h2
  · simp [le_of_lt h1]
  · simp [not_le.mpr h2]
  · simp [le_antisymm (not_lt.mp h2) (not_lt.mp h1)]

theorem cmpLex_ne_gt {a b : List Char} : cmpLex a b ≠ Ordering.gt ↔ lexLt b a = false := by
  unfold cmpLex
  split_ifs with h1 h2
  · simp [lexLt_asymm h1]
  · simp [h2]
  · simp at h2
    simp [h2]

/-- `postLe` is total: `Ord::cmp` never reports both directions
greater. -/
instance : IsTotal BlogPost postLe where
  total p q := by
    unfold postLe BlogPost.cmp
    cases hp : p.date_parsed with
    | none =>
      cases hq : q.date_parsed with
      | none =>
        rw [cmpLex_ne_gt, cmpLex_ne_gt]
        by_cases h : lexLt p.date q.date = true
        · exact Or.inr (lexLt_asymm h)
        · exact Or.inl (eq_false_of_ne_true h)
      | some b => exact Or.inr (by simp)
    | some a =>
      cases hq : q.date_parsed with
      | none => exact Or.inl (by simp)
      | some b =>
        rw [cmpInt_ne_gt, cmpInt_ne_gt]
        exact le_total b.ts a.ts

/-- `postLe` is transitive. -/
instance : IsTrans BlogPost postLe where
  trans p q r := by
    unfold postLe BlogPost.cmp
    cases hp : p.date_parsed with
    | none =>
      cases hq : q.date_parsed with
      | none =>
        cases hr : r.date_parsed with
        | none =>
          rw [cmpLex_ne_gt, cmpLex_ne_gt, cmpLex_ne_gt]
          intro h1 h2
          exact lexLt_false_trans h1 h2
        | some c => intro _ h2; exact absurd rfl h2
      | some b => intro h1 _; exact absurd rfl h1
    | some a =>
      cases hq : q.date_parsed with
      | none =>
        cases hr : r.date_parsed with
        | none => intro _ _; simp
        | some c => intro _ h2; exact absurd rfl h2
      | some b =>
        cases hr : r.date_parsed with
        | none => intro _ _; simp
        | some c =>
          rw [cmpInt_ne_gt, cmpInt_ne_gt, cmpInt_ne_gt]
          intro h1 h2
          exact le_trans h2 h1

/-! ## Shared concrete examples

Two well-formed source documents.  The first has title `A` (slug `a`)
and file stem `b`; the second has title `B` (slug `b`) and file stem
`c`.  Their raw dates make the first sort before the second. -/

def exDocB : List Char :=
  "---\ntitle: A\ndate: 2024-01-02\ndescription: d\n---\nx".toList

def exDocC : List Char :=
  "---\ntitle: B\ndate: 2024-01-01\ndescription: d\n---\ny".toList

def exDocs : List (List Char × List Char) :=
  [("b.md".toList, exDocB), ("c.md".toList, exDocC)]

/-- The collection loaded from `exDocs` (markdown conversion
instantiated with the identity function). -/
def exLoaded : List BlogPost :=
  match BlogService.load_posts (fun s => s) exDocs with
  | .ok l => l
  | .error _ => []

def defaultPost : BlogPost :=
  { title := [], date := [], date_parsed := none, description := [], content := [],
    path := [], slug := [], tags := [], reading_time := 1, excerpt := [] }

/-! ## Claims -/

/-! ### C2 -/

/-- **C2** (code_bug).  The claim says a well-formed `YYYY-MM-DD` raw
date yields a present `parsedDate`.  In the code the parse can never
succeed: `DateTime::parse_from_str` runs `"%Y-%m-%d"` into a `Parsed`
that has no time-of-day and no offset, and `Parsed::to_datetime`
then always fails, so `date_parsed` is `None` for every input — in
particular for the well-formed `"2024-01-15"`, whose calendar fields do
parse (third conjunct). -/
theorem c2_parse_never_succeeds :
    (∀ s : List Char, chronoParseFromStrYmd s = none) ∧
    (BlogPost.new ("T".toList) ("2024-01-15".toList) ("d".toList) ("c".toList)
      ("p".toList) []).date_parsed = none ∧
    chronoParseYmdFields ("2024-01-15".toList) = some (2024, 1, 15) := by
  have hall : ∀ s : List Char, chronoParseFromStrYmd s = none := by
    intro s
    unfold chronoParseFromStrYmd chronoParseYmd
    cases h : chronoParseYmdFields s with
    | none => rfl
    | some t => rfl
  refine ⟨hall, ?_, by decide⟩
  show chronoParseFromStrYmd ("2024-01-15".toList) = none
  exact hall _

/-! ### C3 -/

/-- **C3** counterexample: a collection where an earlier entity matches
the key only by `path` and a later entity's `slug` equals the key; the
lookup returns the earlier one, which the claim forbids. -/
def pPathOnly : BlogPost :=
  { defaultPost with title := "A".toList, slug := "a".toList, path := "k".toList }

def pSlugHit : BlogPost :=
  { defaultPost with title := "K".toList, slug := "k".toList, path := "b".toList }

theorem c3_counterexample :
    BlogService.get_post_by_slug [pPathOnly, pSlugHit] ("k".toList) = some pPathOnly ∧
    pPathOnly.slug ≠ "k".toList ∧ pSlugHit.slug = "k".toList := by
  refine ⟨by decide, by decide, by decide⟩

/-- **C3** (corrected).  `get_post_by_slug` is a single pass testing
`slug == key || path == key`, so the entity returned is the first one
in collection order matching on either key, with no precedence of
`slug` matches over earlier `path` matches.  This characterises the
lookup exactly. -/
theorem c3_lookup_single_pass (posts : List BlogPost) (key : List Char) (p : BlogPost) :
    BlogService.get_post_by_slug posts key = some p ↔
      ∃ l1 l2, posts = l1 ++ p :: l2 ∧ (p.slug = key ∨ p.path = key) ∧
        ∀ q ∈ l1, q.slug ≠ key ∧ q.path ≠ key := by
  induction posts with
  | nil =>
    simp [BlogService.get_post_by_slug]
  | cons a as ih =>
    by_cases h : a.slug = key ∨ a.path = key
    · have hb : (a.slug == key || a.path == key) = true := by
        rcases h with h | h <;> simp [h]
      rw [BlogService.get_post_by_slug,
        @List.find?_cons_of_pos _ (fun post => post.slug == key || post.path == key) a as hb]
      constructor
      · intro he
        injection he with he
        exact ⟨[], as, by rw [he, List.nil_append], he ▸ h, by simp⟩
      · rintro ⟨l1, l2, hl, hp, hq⟩
        cases l1 with
        | nil =>
          rw [List.nil_append] at hl
          injection hl with h1 _
          rw [h1]
        | cons b l1' =>
          rw [List.cons_append] at hl
          injection hl with h1 _
          have hm := hq a (by rw [h1]; exact List.mem_cons_self b l1')
          rcases h with h | h
          · exact absurd h hm.1
          · exact absurd h hm.2
    · have hb : ¬ (a.slug == key || a.path == key) = true := by
        push_neg at h
        simp [h.1, h.2]
      rw [BlogService.get_post_by_slug,
        @List.find?_cons_of_neg _ (fun post => post.slug == key || post.path == key) a as hb]
      rw [BlogService.get_post_by_slug] at ih
      rw [ih]
      constructor
      · rintro ⟨l1, l2, hl, hp, hq⟩
        refine ⟨a :: l1, l2, by simp [hl], hp, ?_⟩
        intro q hqm
        rcases List.mem_cons.mp hqm with rfl | hqm
        · push_neg at h; exact h
        · exact hq q hqm
      · rintro ⟨l1, l2, hl, hp, hq⟩
        cases l1 with
        | nil =>
          rw [List.nil_append] at hl
          injection hl with h1 _
          push_neg at h
          rcases hp with hp | hp
          · exact absurd (h1 ▸ hp) h.1
          · exact absurd (h1 ▸ hp) h.2
        | cons b l1' =>
          rw [List.cons_append] at hl
          injection hl with h1 h2
          exact ⟨l1', l2, h2, hp, fun q hqm => hq q (List.mem_cons_of_mem b hqm)⟩

/-! ### C4 -/

/-- The ordering described by the spec, spelled out directly: parsed
dates descending, parsed before unparsed, raw strings lexicographically
descending otherwise.  (`lexLt p.date q.date = false` says `p.date` is
not lexicographically below `q.date`, i.e. `q.date ≤ p.date`.) -/
def specOrder (p q : BlogPost) : Prop :=
  match p.date_parsed, q.date_parsed with
  | some a, some b => b.ts ≤ a.ts
  | some _, none => True
  | none, some _ => False
  | none, none => lexLt p.date q.date = false

theorem postLe_specOrder {p q : BlogPost} (h : postLe p q) : specOrder p q := by
  unfold postLe BlogPost.cmp at h
  unfold specOrder
  cases hp : p.date_parsed with
  | none =>
    cases hq : q.date_parsed with
    | none =>
      rw [hp, hq] at h
      exact cmpLex_ne_gt.mp h
    | some b =>
      rw [hp, hq] at h
      exact absurd rfl h
  | some a =>
    cases hq : q.date_parsed with
    | none => trivial
    | some b =>
      rw [hp, hq] at h
      exact cmpInt_ne_gt.mp h

/-- **C4** (confirmed).  Any collection returned by `load_posts` is
pairwise ordered as the claim states: a post with a parsed date
precedes every post without one, posts with parsed dates are in parsed
date descending order, and posts without parsed dates are in raw-string
lexicographic descending order. -/
theorem c4_collection_order (mdToHtml : List Char → List Char)
    (entries : List (List Char × List Char)) (out : List BlogPost)
    (h : BlogService.load_posts mdToHtml entries = .ok out) :
    out.Pairwise specOrder := by
  unfold BlogService.load_posts at h
  cases hl : BlogService.loadPostsFrom mdToHtml entries with
  | error e => rw [hl] at h; exact absurd h (by simp [Except.map])
  | ok l =>
    rw [hl] at h
    simp only [Except.map] at h
    injection h with h
    rw [← h]
    exact (List.sorted_insertionSort postLe l).imp (fun hpq => postLe_specOrder hpq)

/-- Witness for C4 at the concrete two-document directory. -/
theorem c4_witness : exLoaded.Pairwise specOrder :=
  c4_collection_order (fun s => s) exDocs exLoaded (by rfl)

/-! ### C10 -/

theorem rustLowerChar_not_alnum {c : Char} (h : rustIsAlnum c = false) :
    rustIsAlnum (rustLowerChar c) = false := by
  unfold rustLowerChar
  split_ifs with hu
  · exfalso
    unfold rustIsAlnum at h
    rw [hu] at h
    simp at h
  · exact h

theorem slugRuns_all_dash :
    ∀ {l : List Char}, (∀ c ∈ l, c = '-') → BlogPost.slugRuns [] l = []
  | [], _ => rfl
  | c :: cs, h => by
    unfold BlogPost.slugRuns
    rw [if_pos (h c (List.mem_cons_self c cs))]
    simp only [List.isEmpty_nil, if_true]
    exact slugRuns_all_dash (fun x hx => h x (List.mem_cons_of_mem c hx))

/-- **C10** (confirmed).  A title with no alphanumeric character slugs
to the empty string; `BlogPost::new` still constructs the post with that
empty slug, so the RSS permalink, the RSS guid value, and the sitemap
location for such a post are all `https://<domain>/blog/` with an empty
final segment. -/
theorem c10_empty_slug (title date description content path : List Char)
    (tags : List (List Char)) (cfg : Config)
    (h : ∀ c ∈ title, rustIsAlnum c = false) :
    BlogPost.generate_slug title = [] ∧
    (BlogPost.new title date description content path tags).slug = [] ∧
    RssService.itemLink cfg (BlogPost.new title date description content path tags) =
      "https://".toList ++ cfg.site.domain ++ "/blog/".toList ∧
    RssService.itemGuidValue cfg (BlogPost.new title date description content path tags) =
      "https://".toList ++ cfg.site.domain ++ "/blog/".toList ∧
    SitemapService.postLoc cfg (BlogPost.new title date description content path tags) =
      "https://".toList ++ cfg.site.domain ++ "/blog/".toList := by
  have hs : BlogPost.generate_slug title = [] := by
    unfold BlogPost.generate_slug
    rw [slugRuns_all_dash]
    · rfl
    · intro c hc
      rcases List.mem_map.mp hc with ⟨c1, hc1, hc1e⟩
      rcases List.mem_map.mp hc1 with ⟨c0, hc0, hc0e⟩
      have hna : rustIsAlnum c1 = false := hc0e ▸ rustLowerChar_not_alnum (h c0 hc0)
      rw [← hc1e, hna]
      simp
  have hslug : (BlogPost.new title date description content path tags).slug = [] := hs
  refine ⟨hs, hslug, ?_, ?_, ?_⟩
  · unfold RssService.itemLink
    rw [hslug, List.append_nil]
  · unfold RssService.itemGuidValue
    rw [hslug, List.append_nil]
  · unfold SitemapService.postLoc
    rw [hslug, List.append_nil]

/-- Witness for C10: the all-punctuation title `"?! .."`. -/
theorem c10_witness :
    BlogPost.generate_slug ("?! ..".toList) = [] ∧
    (BlogPost.new ("?! ..".toList) ("2024-01-01".toList) ("d".toList) ("c".toList)
      ("p".toList) []).slug = [] ∧
    RssService.itemLink
      ⟨⟨"T".toList, "dom".toList, "D".toList, "A".toList, "en".toList⟩,
        ⟨"h".toList, 1⟩, ⟨1, 1⟩, ⟨none, none, none⟩, ⟨none⟩⟩
      (BlogPost.new ("?! ..".toList) ("2024-01-01".toList) ("d".toList) ("c".toList)
        ("p".toList) []) =
      "https://".toList ++ "dom".toList ++ "/blog/".toList ∧
    RssService.itemGuidValue
      ⟨⟨"T".toList, "dom".toList, "D".toList, "A".toList, "en".toList⟩,
        ⟨"h".toList, 1⟩, ⟨1, 1⟩, ⟨none, none, none⟩, ⟨none⟩⟩
      (BlogPost.new ("?! ..".toList) ("2024-01-01".toList) ("d".toList) ("c".toList)
        ("p".toList) []) =
      "https://".toList ++ "dom".toList ++ "/blog/".toList ∧
    SitemapService.postLoc
      ⟨⟨"T".toList, "dom".toList, "D".toList, "A".toList, "en".toList⟩,
        ⟨"h".toList, 1⟩, ⟨1, 1⟩, ⟨none, none, none⟩, ⟨none⟩⟩
      (BlogPost.new ("?! ..".toList) ("2024-01-01".toList) ("d".toList) ("c".toList)
        ("p".toList) []) =
      "https://".toList ++ "dom".toList ++ "/blog/".toList :=
  c10_empty_slug ("?! ..".toList) ("2024-01-01".toList) ("d".toList) ("c".toList)
    ("p".toList) []
    ⟨⟨"T".toList, "dom".toList, "D".toList, "A".toList, "en".toList⟩,
      ⟨"h".toList, 1⟩, ⟨1, 1⟩, ⟨none, none, none⟩, ⟨none⟩⟩
    (by decide)

/-! ### C8 -/

/-- The first entity matching a key is `e` itself whenever `e` matches
and no other entity in the collection matches that key. -/
theorem find_first_of_unique :
    ∀ (posts : List BlogPost) (e : BlogPost) (key : List Char),
      e ∈ posts → (e.slug = key ∨ e.path = key) →
      (∀ q ∈ posts, (q.slug = key ∨ q.path = key) → q = e) →
      BlogService.get_post_by_slug posts key = some e
  | [], e, key, he, _, _ => absurd he (List.not_mem_nil e)
  | a :: as, e, key, he, hk, h => by
    by_cases hb : (a.slug == key || a.path == key) = true
    · rw [BlogService.get_post_by_slug,
        @List.find?_cons_of_pos _ (fun post => post.slug == key || post.path == key) a as hb]
      have ha : a.slug = key ∨ a.path = key := by
        rcases Bool.or_eq_true_iff.mp hb with hb | hb
        · exact Or.inl (by simpa using hb)
        · exact Or.inr (by simpa using hb)
      rw [h a (List.mem_cons_self a as) ha]
    · rw [BlogService.get_post_by_slug,
        @List.find?_cons_of_neg _ (fun post => post.slug == key || post.path == key) a as hb]
      have hea : e ≠ a := by
        intro hea
        apply hb
        rcases hk with hk | hk
        · exact Bool.or_eq_true_iff.mpr (Or.inl (by simp [← hea, hk]))
        · exact Bool.or_eq_true_iff.mpr (Or.inr (by simp [← hea, hk]))
      have he' : e ∈ as := by
        rcases List.mem_cons.mp he with h' | h'
        · exact absurd h' hea
        · exact h'
      exact find_first_of_unique as e key he' hk
        (fun q hq hq' => h q (List.mem_cons_of_mem a hq) hq')

/-- **C8** counterexample, on a freshly loaded collection: in
`exLoaded`, the first post has path `b` and the second post has slug
`b`, so looking up the second post by its own identifier returns the
first post instead. -/
theorem c8_counterexample :
    exLoaded.getD 1 defaultPost ∈ exLoaded ∧
    BlogService.get_post_by_slug exLoaded (exLoaded.getD 1 defaultPost).slug ≠
      some (exLoaded.getD 1 defaultPost) := by
  refine ⟨by decide, by decide⟩

/-- **C8** (corrected).  The round trip holds for an entity `e` of a
collection only when no entity of the collection other than `e` matches
`e`'s identifier or `e`'s pathToken on either key; under such a
cross-key collision the lookup returns the earliest matching entity
instead of `e`. -/
theorem c8_roundtrip_without_collisions (posts : List BlogPost) (e : BlogPost)
    (he : e ∈ posts)
    (h1 : ∀ q ∈ posts, (q.slug = e.slug ∨ q.path = e.slug) → q = e)
    (h2 : ∀ q ∈ posts, (q.slug = e.path ∨ q.path = e.path) → q = e) :
    BlogService.get_post_by_slug posts e.slug = some e ∧
    BlogService.get_post_by_slug posts e.path = some e :=
  ⟨find_first_of_unique posts e e.slug he (Or.inl rfl) h1,
   find_first_of_unique posts e e.path he (Or.inr rfl) h2⟩

/-- Witness for C8 on a one-element collection. -/
theorem c8_witness :
    BlogService.get_post_by_slug [pPathOnly] pPathOnly.slug = some pPathOnly ∧
    BlogService.get_post_by_slug [pPathOnly] pPathOnly.path = some pPathOnly :=
  c8_roundtrip_without_collisions [pPathOnly] pPathOnly (by decide) (by decide) (by decide)

/-! ### C1 -/

/-- The one-step unfolding of `loadPostsFrom` on a cons cell. -/
theorem loadPostsFrom_cons (mdToHtml : List Char → List Char)
    (n c : List Char) (rest : List (List Char × List Char)) :
    BlogService.loadPostsFrom mdToHtml ((n, c) :: rest) =
      (if BlogService.extOf n = some ("md".toList) then
        match BlogService.parse_blog_post mdToHtml c (BlogService.stemOf n) with
        | .error e => .error e
        | .ok none => BlogService.loadPostsFrom mdToHtml rest
        | .ok (some p) =>
          match BlogService.loadPostsFrom mdToHtml rest with
          | .error e => .error e
          | .ok ps => .ok (p :: ps)
      else BlogService.loadPostsFrom mdToHtml rest) := rfl

/-- A document whose content splits into fewer than three parts on
`---` is transparent to the load: it is skipped and loading
continues. -/
theorem loadPostsFrom_skip (mdToHtml : List Char → List Char)
    (nameA contentA : List Char) (h2 : (splitDash contentA).length < 3) :
    ∀ (pre post : List (List Char × List Char)),
      BlogService.loadPostsFrom mdToHtml (pre ++ (nameA, contentA) :: post) =
        BlogService.loadPostsFrom mdToHtml (pre ++ post)
  | [], post => by
    rw [List.nil_append, List.nil_append, loadPostsFrom_cons]
    split_ifs with hext
    · have hp : BlogService.parse_blog_post mdToHtml contentA (BlogService.stemOf nameA) =
          .ok none := by
        unfold BlogService.parse_blog_post
        rw [if_pos h2]
      rw [hp]
    · rfl
  | (n, c) :: pre', post => by
    rw [List.cons_append, List.cons_append, loadPostsFrom_cons, loadPostsFrom_cons]
    have ih := loadPostsFrom_skip mdToHtml nameA contentA h2 pre' post
    simp only [ih]

/-- A document that fails to parse makes the whole load fail, wherever
it sits in the directory. -/
theorem loadPostsFrom_error_of_failing (mdToHtml : List Char → List Char)
    (name content : List Char) (e : AppError)
    (hmd : BlogService.extOf name = some ("md".toList))
    (hp : BlogService.parse_blog_post mdToHtml content (BlogService.stemOf name) = .error e) :
    ∀ (pre post : List (List Char × List Char)),
      ∃ err, BlogService.loadPostsFrom mdToHtml (pre ++ (name, content) :: post) = .error err
  | [], post =>
    ⟨e, by
      rw [List.nil_append, loadPostsFrom_cons]
      rw [if_pos hmd, hp]⟩
  | (n, c) :: pre', post => by
    rw [List.cons_append]
    obtain ⟨err, herr⟩ :=
      loadPostsFrom_error_of_failing mdToHtml name content e hmd hp pre' post
    rw [loadPostsFrom_cons]
    split_ifs with hext
    · cases hpr : BlogService.parse_blog_post mdToHtml c (BlogService.stemOf n) with
      | error e2 => exact ⟨e2, rfl⟩
      | ok o =>
        cases o with
        | none => exact ⟨err, herr⟩
        | some p =>
          rw [herr]
          exact ⟨err, rfl⟩
    · exact ⟨err, herr⟩

/-- **C1** counterexample: a directory with one well-formed document
and one document whose frontmatter lacks `title`.  `load_posts` does
not skip the malformed document — it returns a `BlogParsing` error, so
the collection of well-formed documents is not returned. -/
def c1BadDoc : List Char := "---\ndate: 2024-01-02\ndescription: d\n---\nx".toList

theorem c1_counterexample :
    BlogService.load_posts (fun s => s)
      [("b.md".toList, exDocB), ("bad.md".toList, c1BadDoc)] =
      .error (.BlogParsing ("Missing title field in frontmatter".toList)) := by
  decide

/-- **C1** (corrected).  Only a document with malformed delimiter
structure (fewer than three `---`-split parts) is skipped — that is the
case in which the code emits its warning — and loading continues
without it (first conjunct).  A document whose metadata block lacks a
required scalar field instead produces a typed `BlogParsing` error from
the parser (second conjunct), and that error aborts the whole load:
`load_posts` returns an error rather than the remaining well-formed
documents (third conjunct). -/
theorem c1_skip_vs_error (mdToHtml : List Char → List Char)
    (pre post : List (List Char × List Char))
    (nameA contentA nameB contentB : List Char)
    (h2 : (splitDash contentA).length < 3)
    (hmdB : BlogService.extOf nameB = some ("md".toList))
    (h3 : 3 ≤ (splitDash contentB).length)
    (h4 : findFieldMatch ("title".toList ++ [':']) ((splitDash contentB).getD 1 []) = none) :
    BlogService.loadPostsFrom mdToHtml (pre ++ (nameA, contentA) :: post) =
      BlogService.loadPostsFrom mdToHtml (pre ++ post) ∧
    BlogService.parse_blog_post mdToHtml contentB (BlogService.stemOf nameB) =
      .error (.BlogParsing ("Missing title field in frontmatter".toList)) ∧
    ∃ err, BlogService.load_posts mdToHtml (pre ++ (nameB, contentB) :: post) =
      .error err := by
  have hparse : BlogService.parse_blog_post mdToHtml contentB (BlogService.stemOf nameB) =
      .error (.BlogParsing ("Missing title field in frontmatter".toList)) := by
    unfold BlogService.parse_blog_post
    rw [if_neg (not_lt.mpr h3)]
    have hextr : BlogService.extract_frontmatter_field
        ((splitDash contentB).getD 1 []) ("title".toList) =
        .error (.BlogParsing ("Missing title field in frontmatter".toList)) := by
      unfold BlogService.extract_frontmatter_field
      rw [h4]
      have hmsg : "Missing ".toList ++ "title".toList ++ " field in frontmatter".toList =
          "Missing title field in frontmatter".toList := by decide
      rw [hmsg]
    simp only [hextr]
  refine ⟨loadPostsFrom_skip mdToHtml nameA contentA h2 pre post, hparse, ?_⟩
  obtain ⟨err, herr⟩ :=
    loadPostsFrom_error_of_failing mdToHtml nameB contentB _ hmdB hparse pre post
  refine ⟨err, ?_⟩
  unfold BlogService.load_posts
  rw [herr]
  rfl

/-- Witness for C1: a malformed document with no delimiters and a
document missing its `title` field, inserted into the two-document
directory. -/
theorem c1_witness :
    BlogService.loadPostsFrom (fun s => s)
      ([("b.md".toList, exDocB)] ++ ("n.md".toList, "no frontmatter".toList) ::
        [("c.md".toList, exDocC)]) =
      BlogService.loadPostsFrom (fun s => s)
        ([("b.md".toList, exDocB)] ++ [("c.md".toList, exDocC)]) ∧
    BlogService.parse_blog_post (fun s => s) c1BadDoc
      (BlogService.stemOf ("bad.md".toList)) =
      .error (.BlogParsing ("Missing title field in frontmatter".toList)) ∧
    ∃ err, BlogService.load_posts (fun s => s)
      ([("b.md".toList, exDocB)] ++ ("bad.md".toList, c1BadDoc) ::
        [("c.md".toList, exDocC)]) = .error err := by
  have h := c1_skip_vs_error (fun s => s)
    [("b.md".toList, exDocB)] [("c.md".toList, exDocC)]
    ("n.md".toList) ("no frontmatter".toList) ("bad.md".toList) c1BadDoc
    (by decide) (by decide) (by decide) (by decide)
  exact h

/-! ### C6 -/

theorem replaceF_nil (pat repl : List Char) : ∀ n, replaceF pat repl n [] = []
  | 0 => rfl
  | _ + 1 => rfl

theorem replaceF_of_not_occurs (pat repl : List Char) :
    ∀ (n : Nat) (s : List Char), s.length ≤ n → occursB pat s = false →
      replaceF pat repl n s = s
  | 0, s, hn, _ => by
    cases s with
    | nil => rfl
    | cons c cs => simp at hn
  | _ + 1, [], _, _ => rfl
  | n + 1, c :: cs, hn, hocc => by
    simp only [occursB, Bool.or_eq_false_iff] at hocc
    simp only [replaceF]
    rw [if_neg (fun hc => by rw [hocc.1] at hc; exact Bool.noConfusion hc.2)]
    rw [replaceF_of_not_occurs pat repl n cs (by simpa using Nat.lt_succ_iff.mp hn) hocc.2]

theorem replaceAll_of_not_occurs (pat repl s : List Char)
    (h : occursB pat s = false) : replaceAll pat repl s = s :=
  replaceF_of_not_occurs pat repl s.length s le_rfl h

/-- Replacing a pattern inside exactly that pattern yields the
replacement: the heart of the rescan behaviour. -/
theorem replaceAll_self (pat repl : List Char) (h : pat ≠ []) :
    replaceAll pat repl pat = repl := by
  cases pat with
  | nil => exact absurd rfl h
  | cons c cs =>
    show replaceF (c :: cs) repl (c :: cs).length (c :: cs) = repl
    simp only [List.length_cons, replaceF]
    rw [if_pos ⟨h, List.isPrefixOf_iff_prefix.mpr (List.prefix_refl _)⟩]
    rw [List.drop_succ_cons, List.drop_length, replaceF_nil, List.append_nil]

theorem foldl_replace_fixed (tpl : List Char) :
    ∀ ctx : List (List Char × List Char),
      (∀ kv ∈ ctx, occursB (TemplateEngine.placeholderOf kv.1) tpl = false) →
      ctx.foldl (fun acc kv => replaceAll (TemplateEngine.placeholderOf kv.1) kv.2 acc) tpl
        = tpl
  | [], _ => rfl
  | kv :: rest, h => by
    rw [List.foldl_cons,
      replaceAll_of_not_occurs _ _ _ (h kv (List.mem_cons_self kv rest))]
    exact foldl_replace_fixed tpl rest (fun kv2 h2 => h kv2 (List.mem_cons_of_mem kv h2))

def cfgEx : Config :=
  ⟨⟨"T".toList, "dom".toList, "D".toList, "A".toList, "en".toList⟩,
    ⟨"h".toList, 1⟩, ⟨1, 1⟩, ⟨none, none, none⟩, ⟨none⟩⟩

/-- **C6** counterexample.  The same two-entry context mapping, in its
two possible enumeration orders, renders differently (first conjunct),
because the value inserted for key `A` is rescanned by the later
replacement for key `B` (second conjunct: the inserted text
`<!-- B -->` ended up replaced by `x`).  This refutes both the
order-independence and the never-rescanned parts of the claim. -/
theorem c6_counterexample :
    TemplateEngine.render_template cfgEx ("<!-- A -->".toList)
      [("A".toList, "<!-- B -->".toList), ("B".toList, "x".toList)] ≠
      TemplateEngine.render_template cfgEx ("<!-- A -->".toList)
        [("B".toList, "x".toList), ("A".toList, "<!-- B -->".toList)] ∧
    TemplateEngine.render_template cfgEx ("<!-- A -->".toList)
      [("A".toList, "<!-- B -->".toList), ("B".toList, "x".toList)] = "x".toList := by
  refine ⟨by decide, by decide⟩

/-- **C6** (corrected).  Substitution is a sequence of whole-string
replacements, one per context entry in enumeration order, followed by
the fixed site-wide replacements; text inserted for an earlier key is
rescanned by every later replacement, so the result can depend on the
enumeration order of the context mapping.  What does hold: markers not
matched by any context key or site-wide placeholder are left verbatim
and rendering of loaded template text never fails (first conjunct);
and a substituted value is itself substituted into, e.g. a context
value consisting of the site-title marker ends up replaced by the
configured site title (second conjunct). -/
theorem c6_sequential_substitution (cfg : Config) (tpl : List Char)
    (ctx : List (List Char × List Char)) (k : List Char)
    (h1 : ∀ kv ∈ ctx, occursB (TemplateEngine.placeholderOf kv.1) tpl = false)
    (h2 : occursB ("<!-- SITE_TITLE -->".toList) tpl = false)
    (h3 : occursB ("<!-- SITE_DESCRIPTION -->".toList) tpl = false)
    (h4 : occursB ("<!-- SITE_AUTHOR -->".toList) tpl = false)
    (h5 : occursB ("<!-- SITE_DOMAIN -->".toList) tpl = false)
    (h6 : occursB ("<!-- ANALYTICS -->".toList) tpl = false)
    (t3 : occursB ("<!-- SITE_DESCRIPTION -->".toList) cfg.site.title = false)
    (t4 : occursB ("<!-- SITE_AUTHOR -->".toList) cfg.site.title = false)
    (t5 : occursB ("<!-- SITE_DOMAIN -->".toList) cfg.site.title = false)
    (t6 : occursB ("<!-- ANALYTICS -->".toList) cfg.site.title = false) :
    TemplateEngine.render_template cfg tpl ctx = tpl ∧
    TemplateEngine.render_template cfg (TemplateEngine.placeholderOf k)
      [(k, "<!-- SITE_TITLE -->".toList)] = cfg.site.title := by
  constructor
  · unfold TemplateEngine.render_template
    simp only [foldl_replace_fixed tpl ctx h1,
      replaceAll_of_not_occurs _ cfg.site.title tpl h2,
      replaceAll_of_not_occurs _ cfg.site.description tpl h3,
      replaceAll_of_not_occurs _ cfg.site.author tpl h4,
      replaceAll_of_not_occurs _ cfg.site.domain tpl h5]
    cases hga : cfg.analytics.google_analytics_id with
    | none => simp only [hga]; exact replaceAll_of_not_occurs _ _ _ h6
    | some ga => simp only [hga]; exact replaceAll_of_not_occurs _ _ _ h6
  · unfold TemplateEngine.render_template
    have hph : TemplateEngine.placeholderOf k ≠ [] := by
      unfold TemplateEngine.placeholderOf
      simp
    have hst : ("<!-- SITE_TITLE -->".toList : List Char) ≠ [] := by decide
    simp only [List.foldl_cons, List.foldl_nil,
      replaceAll_self (TemplateEngine.placeholderOf k)
        ("<!-- SITE_TITLE -->".toList) hph,
      replaceAll_self ("<!-- SITE_TITLE -->".toList) cfg.site.title hst,
      replaceAll_of_not_occurs _ cfg.site.description cfg.site.title t3,
      replaceAll_of_not_occurs _ cfg.site.author cfg.site.title t4,
      replaceAll_of_not_occurs _ cfg.site.domain cfg.site.title t5]
    cases hga : cfg.analytics.google_analytics_id with
    | none => simp only [hga]; exact replaceAll_of_not_occurs _ _ _ t6
    | some ga => simp only [hga]; exact replaceAll_of_not_occurs _ _ _ t6

/-- Witness for C6: a marker-free template is returned verbatim, and a
context value holding the site-title marker renders to the configured
title. -/
theorem c6_witness :
    TemplateEngine.render_template cfgEx ("hello".toList)
      [("A".toList, "v".toList)] = "hello".toList ∧
    TemplateEngine.render_template cfgEx (TemplateEngine.placeholderOf ("K".toList))
      [("K".toList, "<!-- SITE_TITLE -->".toList)] = cfgEx.site.title :=
  c6_sequential_substitution cfgEx ("hello".toList) [("A".toList, "v".toList)]
    ("K".toList)
    (by decide) (by decide) (by decide) (by decide) (by decide) (by decide)
    (by decide) (by decide) (by decide) (by decide)

/-! ### C5 -/

/-- **C5** counterexample: the metadata block is the single line
`subtitle: Sub`, which does not begin with `title:` — the name `title`
occurs only mid-line, as a suffix of the longer key `subtitle` — yet
the extraction returns `Sub` as the `title` value instead of a
missing-field error, because the compiled pattern `title:\s*(.+)` is
not anchored to line starts. -/
theorem c5_counterexample :
    BlogService.extract_frontmatter_field ("subtitle: Sub".toList) ("title".toList) =
      .ok ("Sub".toList) ∧
    ("title:".toList).isPrefixOf ("subtitle: Sub".toList) = false := by
  refine ⟨by decide, by decide⟩

/-- The one-step unfolding of `findFieldMatch` on a cons cell. -/
theorem findFieldMatch_cons (pat : List Char) (c : Char) (cs : List Char) :
    findFieldMatch pat (c :: cs) =
      (if pat.isPrefixOf (c :: cs) then
        match captureTail ((c :: cs).drop pat.length) with
        | some cap => some cap
        | none => findFieldMatch pat cs
      else findFieldMatch pat cs) := rfl

/-- Scanning starts at the leftmost position where the whole pattern
matches; positions where the literal does not even occur are skipped. -/
theorem findFieldMatch_skip (pat : List Char) :
    ∀ (pre s : List Char),
      (∀ j, j < pre.length → pat.isPrefixOf ((pre ++ s).drop j) = false) →
      findFieldMatch pat (pre ++ s) = findFieldMatch pat s
  | [], s, _ => by rw [List.nil_append]
  | c :: pre', s, h => by
    rw [List.cons_append]
    show findFieldMatch pat (c :: (pre' ++ s)) = findFieldMatch pat s
    have h0 : pat.isPrefixOf (c :: (pre' ++ s)) = false := by
      have := h 0 (Nat.succ_pos _)
      rwa [List.drop_zero, List.cons_append] at this
    rw [findFieldMatch_cons]
    rw [if_neg (fun hc => by rw [h0] at hc; exact Bool.noConfusion hc)]
    exact findFieldMatch_skip pat pre' s
      (fun j hj => by
        have := h (j + 1) (Nat.succ_lt_succ hj)
        rwa [List.cons_append, List.drop_succ_cons] at this)

theorem findFieldMatch_here (pat t : List Char) (hne : pat ≠ []) (cap : List Char)
    (hcap : captureTail t = some cap) : findFieldMatch pat (pat ++ t) = some cap := by
  cases pat with
  | nil => exact absurd rfl hne
  | cons p0 prest =>
    rw [List.cons_append]
    unfold findFieldMatch
    rw [if_pos (List.isPrefixOf_iff_prefix.mpr
      (List.cons_append p0 prest t ▸ List.prefix_append (p0 :: prest) t))]
    rw [show (p0 :: (prest ++ t)).drop (p0 :: prest).length = t from by
      rw [← List.cons_append, List.drop_left]]
    rw [hcap]

theorem wsPrefixLen_exact :
    ∀ (ws : List Char), (∀ c ∈ ws, isWs c = true) →
      ∀ (c0 : Char) (t : List Char), isWs c0 = false →
        wsPrefixLen (ws ++ c0 :: t) = ws.length
  | [], _, c0, t, hc0 => by
    rw [List.nil_append]
    unfold wsPrefixLen
    rw [hc0]
    simp
  | w :: ws', h, c0, t, hc0 => by
    rw [List.cons_append]
    unfold wsPrefixLen
    rw [h w (List.mem_cons_self w ws')]
    simp only [if_true, List.length_cons]
    rw [wsPrefixLen_exact ws' (fun c hc => h c (List.mem_cons_of_mem w hc)) c0 t hc0]

theorem tryCapture_at (s : List Char) (j : Nat) (c0 : Char) (t : List Char)
    (hdrop : s.drop j = c0 :: t) (hc0 : ¬ c0 = '\n') :
    tryCapture s j = some ((c0 :: t).takeWhile (fun x => x != '\n')) := by
  cases j with
  | zero =>
    rw [List.drop_zero] at hdrop
    unfold tryCapture
    rw [hdrop]
    simp only [List.head?_cons]
    rw [if_neg hc0]
  | succ j' =>
    unfold tryCapture
    rw [hdrop]
    simp only [List.head?_cons]
    rw [if_neg hc0]

theorem takeWhile_no_nl :
    ∀ (v rest : List Char), '\n' ∉ v →
      (v ++ '\n' :: rest).takeWhile (fun x => x != '\n') = v
  | [], rest, _ => by simp [List.takeWhile]
  | c :: v', rest, h => by
    rw [List.cons_append]
    have hc : (c != '\n') = true := by
      simp only [bne_iff_ne]
      exact fun hc => h (hc ▸ List.mem_cons_self c v')
    rw [List.takeWhile_cons (fun x => x != '\n') c (v' ++ '\n' :: rest), if_pos hc]
    rw [takeWhile_no_nl v' rest (fun hm => h (List.mem_cons_of_mem c hm))]

theorem captureTail_value (ws v' rest : List Char) (c0 : Char)
    (hws : ∀ c ∈ ws, isWs c = true) (hc0 : isWs c0 = false)
    (hnl : '\n' ∉ c0 :: v') :
    captureTail (ws ++ (c0 :: v') ++ '\n' :: rest) = some (c0 :: v') := by
  have hc0nl : ¬ c0 = '\n' := fun hc => by
    rw [hc] at hc0
    exact Bool.noConfusion ((by decide : isWs '\n' = true) ▸ hc0)
  have harr : ws ++ (c0 :: v') ++ '\n' :: rest = ws ++ c0 :: (v' ++ '\n' :: rest) := by
    simp [List.append_assoc]
  unfold captureTail
  rw [harr, wsPrefixLen_exact ws hws c0 (v' ++ '\n' :: rest) hc0]
  rw [tryCapture_at _ ws.length c0 (v' ++ '\n' :: rest) (List.drop_left ws _) hc0nl]
  have hv : '\n' ∉ v' := fun hm => hnl (List.mem_cons_of_mem c0 hm)
  rw [show c0 :: (v' ++ '\n' :: rest) = (c0 :: v') ++ '\n' :: rest from by
    rw [List.cons_append]]
  rw [takeWhile_no_nl (c0 :: v') rest hnl]

/-- **C5** (corrected).  A required scalar field is recognised at the
first position where `<fieldname>:` occurs anywhere in the metadata
block — including mid-line, e.g. as the suffix of a longer key such as
`subtitle:` — not only at the start of a line; the value is the
remainder of that line after the colon and any following whitespace,
trimmed of whitespace and of surrounding `"` characters. -/
theorem c5_field_anywhere (pre ws v' rest field : List Char) (c0 : Char)
    (hpre : ∀ j, j < pre.length →
      (field ++ [':']).isPrefixOf
        ((pre ++ (field ++ [':']) ++ (ws ++ (c0 :: v') ++ '\n' :: rest)).drop j) = false)
    (hws : ∀ c ∈ ws, isWs c = true)
    (hc0 : isWs c0 = false)
    (hnl : '\n' ∉ c0 :: v') :
    BlogService.extract_frontmatter_field
      (pre ++ (field ++ [':']) ++ (ws ++ (c0 :: v') ++ '\n' :: rest)) field =
      .ok (trimChar '"' (trimWs (c0 :: v'))) := by
  unfold BlogService.extract_frontmatter_field
  rw [List.append_assoc pre (field ++ [':']) _]
  rw [findFieldMatch_skip (field ++ [':']) pre _
    (fun j hj => by
      have := hpre j hj
      rwa [List.append_assoc pre (field ++ [':']) _] at this)]
  rw [findFieldMatch_here (field ++ [':']) _ (by simp) (c0 :: v')
    (captureTail_value ws v' rest c0 hws hc0 hnl)]

/-- Witness for C5: the mid-line match inside `subtitle: Sub`. -/
theorem c5_witness :
    BlogService.extract_frontmatter_field
      ("sub".toList ++ ("title".toList ++ [':']) ++
        ([' '] ++ ('S' :: "ub".toList) ++ '\n' :: [])) ("title".toList) =
      .ok (trimChar '"' (trimWs ('S' :: "ub".toList))) :=
  c5_field_anywhere ("sub".toList) [' '] ("ub".toList) [] ("title".toList) 'S'
    (by decide) (by decide) (by decide) (by decide)

/-! ### C7 -/

/-- Every token produced by `splitWsAux` is non-empty and contains no
whitespace, provided the accumulator does not. -/
theorem splitWsAux_tokens :
    ∀ (s cur : List Char), (∀ c ∈ cur, isWs c = false) →
      ∀ t ∈ splitWsAux cur s, t ≠ [] ∧ ∀ c ∈ t, isWs c = false
  | [], cur, hcur => by
    unfold splitWsAux
    split_ifs with he
    · intro t ht
      exact absurd ht (List.not_mem_nil t)
    · intro t ht
      rcases List.mem_singleton.mp ht with rfl
      refine ⟨fun hnil => he ?_, fun c hc => hcur c (List.mem_reverse.mp hc)⟩
      rw [List.isEmpty_iff]
      rw [← List.reverse_reverse cur, hnil]
      rfl
  | c :: cs, cur, hcur => by
    unfold splitWsAux
    split_ifs with hw he
    · exact splitWsAux_tokens cs [] (by simp)
    · intro t ht
      rcases List.mem_cons.mp ht with rfl | ht
      · refine ⟨fun hnil => he ?_, fun x hx => hcur x (List.mem_reverse.mp hx)⟩
        rw [List.isEmpty_iff]
        rw [← List.reverse_reverse cur, hnil]
        rfl
      · exact splitWsAux_tokens cs [] (by simp) t ht
    · exact splitWsAux_tokens cs (c :: cur)
        (fun x hx => by
          rcases List.mem_cons.mp hx with rfl | hx
          · exact eq_false_of_ne_true hw
          · exact hcur x hx)

/-- One-step equations of `splitWsAux`. -/
theorem splitWsAux_nil (cur : List Char) :
    splitWsAux cur [] = if cur.isEmpty then [] else [cur.reverse] := rfl

theorem splitWsAux_cons (cur : List Char) (c : Char) (cs : List Char) :
    splitWsAux cur (c :: cs) =
      (if isWs c then
        (if cur.isEmpty then splitWsAux [] cs else cur.reverse :: splitWsAux [] cs)
      else splitWsAux (c :: cur) cs) := rfl

/-- Feeding a run of non-whitespace characters into the splitter just
extends the accumulator. -/
theorem splitWsAux_nonws_run :
    ∀ (t cur s' : List Char), (∀ c ∈ t, isWs c = false) →
      splitWsAux cur (t ++ s') = splitWsAux (t.reverse ++ cur) s'
  | [], cur, s', _ => by rw [List.nil_append, List.reverse_nil, List.nil_append]
  | c :: ts, cur, s', h => by
    rw [List.cons_append, splitWsAux_cons]
    rw [if_neg (fun hc => by
      rw [h c (List.mem_cons_self c ts)] at hc
      exact Bool.noConfusion hc)]
    rw [splitWsAux_nonws_run ts (c :: cur) s'
      (fun x hx => h x (List.mem_cons_of_mem c hx))]
    rw [List.reverse_cons, List.append_assoc, List.singleton_append]

theorem reverse_not_empty {t : List Char} (ht : t ≠ []) : t.reverse.isEmpty ≠ true :=
  fun hc => ht (by
    rw [List.isEmpty_iff] at hc
    rw [← List.reverse_reverse t, hc]
    rfl)

/-- A single non-empty whitespace-free token splits to itself. -/
theorem splitWs_single (t : List Char) (ht : t ≠ [])
    (hnws : ∀ c ∈ t, isWs c = false) : splitWs t = [t] := by
  unfold splitWs
  conv_lhs => rw [show t = t ++ [] from (List.append_nil t).symm]
  rw [splitWsAux_nonws_run t [] [] hnws, List.append_nil, splitWsAux_nil]
  rw [if_neg (reverse_not_empty ht), List.reverse_reverse]

/-- A leading token followed by a space peels off. -/
theorem splitWs_token_cons (t s' : List Char) (ht : t ≠ [])
    (hnws : ∀ c ∈ t, isWs c = false) :
    splitWs (t ++ ' ' :: s') = t :: splitWs s' := by
  unfold splitWs
  rw [splitWsAux_nonws_run t [] (' ' :: s') hnws, List.append_nil, splitWsAux_cons]
  rw [if_pos (by decide)]
  rw [if_neg (reverse_not_empty ht), List.reverse_reverse]

/-- Splitting the space-join of non-empty whitespace-free tokens with a
non-whitespace suffix glued to the last token yields exactly as many
tokens as were joined. -/
theorem splitWs_joinSp_append_length :
    ∀ (ws : List (List Char)) (d : List Char),
      (∀ t ∈ ws, t ≠ [] ∧ ∀ c ∈ t, isWs c = false) →
      d ≠ [] → (∀ c ∈ d, isWs c = false) → ws ≠ [] →
      (splitWs (joinSp ws ++ d)).length = ws.length
  | [], _, _, _, _, hne => absurd rfl hne
  | [t], d, h, hd, hdn, _ => by
    have ht := h t (List.mem_singleton.mpr rfl)
    show (splitWs (t ++ d)).length = 1
    rw [splitWs_single (t ++ d)
      (fun hc => hd (List.append_eq_nil.mp hc).2)
      (fun c hc => by
        rcases List.mem_append.mp hc with hc | hc
        · exact ht.2 c hc
        · exact hdn c hc)]
    rfl
  | t :: t2 :: rest, d, h, hd, hdn, _ => by
    have ht := h t (List.mem_cons_self t (t2 :: rest))
    show (splitWs ((t ++ ' ' :: joinSp (t2 :: rest)) ++ d)).length = _
    rw [List.append_assoc, List.cons_append]
    rw [splitWs_token_cons t (joinSp (t2 :: rest) ++ d) ht.1 ht.2]
    rw [List.length_cons]
    rw [splitWs_joinSp_append_length (t2 :: rest) d
      (fun x hx => h x (List.mem_cons_of_mem t hx)) hd hdn (by simp)]
    rfl

/-- **C7** counterexample: a body holding a code block that spans two
lines.  The removal pattern `<pre><code.*?</code></pre>` cannot match
across a newline, so the code block — its tags included — survives into
the excerpt, which is therefore not the plain text with code blocks
removed. -/
def c7Body : List Char := "<p>x</p>\n<pre><code>line1\nline2</code></pre>".toList

set_option maxRecDepth 8000 in
theorem c7_counterexample :
    BlogPost.generate_excerpt c7Body =
      "x <pre><code>line1 line2</code></pre>".toList ∧
    occursB ("<pre><code".toList) (BlogPost.generate_excerpt c7Body) = true ∧
    occursB ("line1".toList) (BlogPost.generate_excerpt c7Body) = true := by
  refine ⟨by decide, by decide, by decide⟩

/-- **C7** (corrected).  The excerpt is derived from the cleaned text of
the body — listed block tags stripped and those code blocks removed that
lie entirely on one line (a code block containing a newline is not
matched by the removal pattern and survives verbatim).  With at most 30
words of cleaned text the excerpt equals the cleaned text exactly with
no ellipsis appended; with 31 or more it is exactly the first 30 words
joined by single spaces followed by the ellipsis marker; and the
excerpt's whitespace-token count (the ellipsis glued to the 30th word)
never exceeds 30. -/
theorem c7_excerpt_truncation (content : List Char) :
    ((splitWs (BlogPost.cleanedText content)).length ≤ 30 →
      BlogPost.generate_excerpt content = BlogPost.cleanedText content) ∧
    (30 < (splitWs (BlogPost.cleanedText content)).length →
      BlogPost.generate_excerpt content =
        joinSp ((splitWs (BlogPost.cleanedText content)).take 30) ++ "...".toList) ∧
    (splitWs (BlogPost.generate_excerpt content)).length ≤ 30 := by
  have hdef : BlogPost.generate_excerpt content =
      if (splitWs (BlogPost.cleanedText content)).length ≤ 30 then
        BlogPost.cleanedText content
      else joinSp ((splitWs (BlogPost.cleanedText content)).take 30) ++ "...".toList :=
    rfl
  refine ⟨fun h => by rw [hdef, if_pos h], fun h => by rw [hdef, if_neg (not_le.mpr h)], ?_⟩
  by_cases h : (splitWs (BlogPost.cleanedText content)).length ≤ 30
  · rw [hdef, if_pos h]
    exact h
  · rw [hdef, if_neg h]
    push_neg at h
    have htk : ∀ t ∈ (splitWs (BlogPost.cleanedText content)).take 30,
        t ≠ [] ∧ ∀ c ∈ t, isWs c = false :=
      fun t ht => splitWsAux_tokens (BlogPost.cleanedText content) [] (by simp) t
        (List.mem_of_mem_take ht)
    have hne : (splitWs (BlogPost.cleanedText content)).take 30 ≠ [] := by
      intro hc
      have := congrArg List.length hc
      rw [List.length_take] at this
      simp only [List.length_nil] at this
      omega
    rw [splitWs_joinSp_append_length _ ("...".toList) htk (by decide) (by decide) hne]
    rw [List.length_take]
    omega

/-- Witness for C7: a two-word body keeps its cleaned text; a 31-word
body is truncated to 30 words plus the ellipsis. -/
def c7LongBody : List Char :=
  ("<p>w1 w2 w3 w4 w5 w6 w7 w8 w9 w10 w11 w12 w13 w14 w15 w16 w17 w18 w19 w20 " ++
   "w21 w22 w23 w24 w25 w26 w27 w28 w29 w30 w31</p>").toList

set_option maxRecDepth 20000 in
theorem c7_witness :
    BlogPost.generate_excerpt ("<p>one two</p>".toList) =
      BlogPost.cleanedText ("<p>one two</p>".toList) ∧
    BlogPost.generate_excerpt c7LongBody =
      joinSp ((splitWs (BlogPost.cleanedText c7LongBody)).take 30) ++ "...".toList :=
  ⟨(c7_excerpt_truncation ("<p>one two</p>".toList)).1 (by decide),
   (c7_excerpt_truncation c7LongBody).2.1 (by decide)⟩

/-! ### C9 -/

/-- Modelled from the claim (C9): each post entry's last-modified value
is the calendar-date portion of its ISO timestamp, "falling back to the
raw date string when no parsed date exists" — the raw string verbatim. -/
def claimLastmod (p : BlogPost) : List Char :=
  match p.date_parsed with
  | some dt => (toRfc3339 dt).takeWhile (fun c => c != 'T')
  | none => p.date

/-- The amended last-modified value: the prefix of the ISO date before
the first `T` in both cases — for an unparsed date this truncates the
raw string at its first `T` instead of using it verbatim. -/
def amendedLastmod (p : BlogPost) : List Char :=
  (BlogPost.iso_date p).takeWhile (fun c => c != 'T')

/-- One post entry as the claim describes it: location
`https://<domain>/blog/<identifier>`, the last-modified value,
change-frequency `monthly`, and the rank-tiered priority (highest tier
for ranks 0–4, middle for 5–9, lowest after). -/
def claimPostEntry (cfg : Config) (rank : Nat) (p : BlogPost) : List Char :=
  "  <url>\n    <loc>".toList ++
    ("https://".toList ++ cfg.site.domain ++ "/blog/".toList ++ p.slug) ++
    "</loc>\n    <lastmod>".toList ++ claimLastmod p ++
    "</lastmod>\n    <changefreq>monthly</changefreq>\n    <priority>".toList ++
    (if rank < 5 then "0.8".toList else if rank < 10 then "0.7".toList
      else "0.6".toList) ++
    "</priority>\n  </url>\n".toList

def amendedPostEntry (cfg : Config) (rank : Nat) (p : BlogPost) : List Char :=
  "  <url>\n    <loc>".toList ++
    ("https://".toList ++ cfg.site.domain ++ "/blog/".toList ++ p.slug) ++
    "</loc>\n    <lastmod>".toList ++ amendedLastmod p ++
    "</lastmod>\n    <changefreq>monthly</changefreq>\n    <priority>".toList ++
    (if rank < 5 then "0.8".toList else if rank < 10 then "0.7".toList
      else "0.6".toList) ++
    "</priority>\n  </url>\n".toList

/-- One entry per post, in collection order, with ranks counted from
the given starting rank. -/
def claimEntries (cfg : Config) : Nat → List BlogPost → List Char
  | _, [] => []
  | rank, p :: ps => claimPostEntry cfg rank p ++ claimEntries cfg (rank + 1) ps

def amendedEntries (cfg : Config) : Nat → List BlogPost → List Char
  | _, [] => []
  | rank, p :: ps => amendedPostEntry cfg rank p ++ amendedEntries cfg (rank + 1) ps

/-- Modelled from the claim (C9): the header, exactly three fixed
entries (site root, blog index, feed route) in fixed order, then one
entry per post in collection order, then the closing tag. -/
def sitemapClaim (cfg : Config) (posts : List BlogPost) : List Char :=
  SitemapService.sitemapHeader ++ SitemapService.rootEntry cfg ++
    SitemapService.blogIndexEntry cfg ++ SitemapService.feedEntry cfg ++
    claimEntries cfg 0 posts ++ "</urlset>".toList

/-- The claim amended only in the last-modified fallback. -/
def sitemapAmended (cfg : Config) (posts : List BlogPost) : List Char :=
  SitemapService.sitemapHeader ++ SitemapService.rootEntry cfg ++
    SitemapService.blogIndexEntry cfg ++ SitemapService.feedEntry cfg ++
    amendedEntries cfg 0 posts ++ "</urlset>".toList

/-- A post whose raw date string contains a `T` and (as always in this
code, see C2) has no parsed date. -/
def c9Post : BlogPost :=
  { defaultPost with date := "2025-01-01Tx".toList, slug := "hi".toList }

set_option maxRecDepth 40000 in
/-- **C9** counterexample: for the post with raw date `2025-01-01Tx`,
the code emits `<lastmod>2025-01-01</lastmod>` — the raw string cut at
its first `T` — while the claim calls for the raw date string itself,
so the generated sitemap differs from the claim's description. -/
theorem c9_counterexample :
    SitemapService.postDateOf c9Post = "2025-01-01".toList ∧
    claimLastmod c9Post = "2025-01-01Tx".toList ∧
    SitemapService.generate_sitemap cfgEx [c9Post] ≠ sitemapClaim cfgEx [c9Post] := by
  refine ⟨by decide, by decide, by decide⟩

theorem postUrlEntry_eq_amended (cfg : Config) (rank : Nat) (p : BlogPost) :
    SitemapService.postUrlEntry cfg rank p = amendedPostEntry cfg rank p := by
  unfold SitemapService.postUrlEntry amendedPostEntry SitemapService.postLoc
    SitemapService.postDateOf amendedLastmod SitemapService.priorityStr
  rfl

theorem foldl_entries_eq (cfg : Config) :
    ∀ (posts : List BlogPost) (n : Nat) (acc : List Char),
      (List.enumFrom n posts).foldl
        (fun acc ip => acc ++ SitemapService.postUrlEntry cfg ip.1 ip.2) acc =
        acc ++ amendedEntries cfg n posts
  | [], n, acc => by
    show acc = acc ++ amendedEntries cfg n []
    rw [show amendedEntries cfg n [] = [] from rfl, List.append_nil]
  | p :: ps, n, acc => by
    show (List.enumFrom (n + 1) ps).foldl _ (acc ++ SitemapService.postUrlEntry cfg n p) =
      acc ++ amendedEntries cfg n (p :: ps)
    rw [foldl_entries_eq cfg ps (n + 1) (acc ++ SitemapService.postUrlEntry cfg n p)]
    rw [show amendedEntries cfg n (p :: ps) =
      amendedPostEntry cfg n p ++ amendedEntries cfg (n + 1) ps from rfl]
    rw [postUrlEntry_eq_amended, List.append_assoc]

/-- **C9** (corrected).  The sitemap generator always succeeds and its
output is exactly: the fixed header, the three fixed entries (site
root, blog index, feed route) in fixed order, one entry per post in
collection order — each with change-frequency `monthly`, the rank-tiered
priority (first 5 posts the highest post tier, next 5 the middle tier,
all later the lowest), and as last-modified the portion of the post's
ISO date before its first `T` (for a post with no parsed date this is
the raw date string truncated at its first `T`, not necessarily the raw
string itself) — and the closing tag. -/
theorem c9_sitemap_structure (cfg : Config) (posts : List BlogPost) :
    SitemapService.generate_sitemap cfg posts = sitemapAmended cfg posts := by
  unfold SitemapService.generate_sitemap sitemapAmended
  simp only [List.enum, foldl_entries_eq cfg posts 0]

end Jmrl
